import Mathlib

/-!
P2P chat: frame codec, peer table and flood relay.

A shallow embedding of `p2pchat.c`.  Bytes and descriptors are natural
numbers, a C string is the list of bytes stored from its pointer onwards, and
`NULL` is `none`.  A `size_t` is taken to be 64 bits wide and stored least
significant byte first.  The operating system is an explicit `World`: every
descriptor has a pending inbound byte stream and a schedule that fixes what
each successive `read` and `write` call on it returns, so that short reads,
short writes, failing calls and the end of a stream can all be exercised.
The threads of the program are taken one step at a time: a step is one pass
of the loop of `listening`, the bootstrap branch of `main`, one pass of the
loop of `clientThread`, or one call of `input_callback`.
-/

namespace P2PChat

/-! ## Constants of the source -/

/-- Capacity of the tables `clients` and `neighbors_accept`. -/
def MAX_CLIENTS : Nat := 100

/-- Largest payload length `receive_message` accepts. -/
def MAX_MESSAGE_LENGTH : Nat := 2048

/-- Value stored in `errno` by the two codec functions. -/
def EINVAL : Nat := 22

/-! ## C strings and the object representation of `size_t` -/

/-- The C library `strlen`: number of bytes before the first NUL of the buffer. -/
def strlen (m : List Nat) : Nat := (m.takeWhile (fun b => b != 0)).length

/-- Bytes of a buffer before its first NUL, the string a `char *` denotes. -/
def cstr (m : List Nat) : List Nat := m.takeWhile (fun b => b != 0)

/-- The eight bytes of a 64-bit `size_t` as they lie in memory (least significant first). -/
def sizeBytes (n : Nat) : List Nat := (List.range 8).map (fun i => n / 256 ^ i % 256)

/-- The `size_t` value held by a run of bytes in memory (least significant first). -/
def sizeOfBytes (bs : List Nat) : Nat := bs.foldr (fun b acc => b % 256 + 256 * acc) 0

/-! ## The operating system -/

/-- One descriptor: whether it is open, the bytes still to arrive on it (after which
the stream ends), and what the next `read` and `write` calls do: `none` makes the call
fail with -1, `some k` lets it transfer at most `k` bytes, and once the schedule is used
up every call transfers all it is asked for. -/
structure Conn where
  isOpen : Bool
  inp : List Nat
  rsched : List (Option Nat)
  wsched : List (Option Nat)

/-- Record of one `write` call: descriptor, bytes offered, value returned. -/
structure WriteCall where
  fd : Nat
  buf : List Nat
  rc : Int

/-- The descriptors, the log of all `write` calls so far, and `errno`. -/
structure World where
  conns : Nat → Conn
  wlog : List WriteCall
  errno : Nat

/-- Replace the state of one descriptor. -/
def setConn (w : World) (fd : Nat) (c : Conn) : World :=
  { w with conns := fun f => if f = fd then c else w.conns f }

/-- Number of bytes the next call on a schedule may transfer when asked for `count`
bytes, `none` when the call fails. -/
def grant (sched : List (Option Nat)) (count : Nat) : Option Nat :=
  match sched with
  | [] => some count
  | none :: _ => none
  | some k :: _ => some (min k count)

/-- The system call `read(fd, buf, count)`: value returned, bytes stored, new world. -/
def read (w : World) (fd count : Nat) : Int × List Nat × World :=
  if (w.conns fd).isOpen = false then (-1, [], w)
  else
    match grant (w.conns fd).rsched count with
    | none => (-1, [], setConn w fd { w.conns fd with rsched := (w.conns fd).rsched.tail })
    | some t =>
      ((((w.conns fd).inp.take t).length : Nat), (w.conns fd).inp.take t,
        setConn w fd
          { w.conns fd with inp := (w.conns fd).inp.drop t, rsched := (w.conns fd).rsched.tail })

/-- Append a call to the write log. -/
def logWrite (w : World) (fd : Nat) (buf : List Nat) (rc : Int) : World :=
  { w with wlog := w.wlog ++ [⟨fd, buf, rc⟩] }

/-- The system call `write(fd, buf, count)`, `buf` being the `count` bytes offered. -/
def write (w : World) (fd : Nat) (buf : List Nat) : Int × World :=
  if (w.conns fd).isOpen = false then (-1, logWrite w fd buf (-1))
  else
    match grant (w.conns fd).wsched buf.length with
    | none =>
      (-1, logWrite (setConn w fd { w.conns fd with wsched := (w.conns fd).wsched.tail }) fd buf (-1))
    | some t =>
      ((t : Nat),
        logWrite (setConn w fd { w.conns fd with wsched := (w.conns fd).wsched.tail }) fd buf (t : Nat))

/-- The system call `close(fd)`. -/
def close (w : World) (fd : Nat) : World :=
  setConn w fd { w.conns fd with isOpen := false }

/-! ## The frame codec -/

/-- The `while (bytes_written < len)` loop of `send_message`.  The first argument bounds
the number of passes; `len` passes always suffice because a pass that continues has
written at least one byte. -/
def send_loop (fd : Nat) (message : List Nat) (len : Nat) : Nat → Nat → World → Int × World
  | 0, _, w => (0, w)
  | fuel + 1, bytes_written, w =>
    if bytes_written < len then
      if (write w fd ((message.drop bytes_written).take (len - bytes_written))).1 ≤ 0 then
        (-1, (write w fd ((message.drop bytes_written).take (len - bytes_written))).2)
      else
        send_loop fd message len fuel
          (bytes_written + (write w fd ((message.drop bytes_written).take (len - bytes_written))).1.toNat)
          (write w fd ((message.drop bytes_written).take (len - bytes_written))).2
    else (0, w)

/-- The function `send_message(fd, message)`: value returned and new world. -/
def send_message (w : World) (fd : Nat) (message : Option (List Nat)) : Int × World :=
  match message with
  | none => (-1, { w with errno := EINVAL })
  | some m =>
    if (write w fd (sizeBytes (strlen m))).1 ≠ 8 then (-1, (write w fd (sizeBytes (strlen m))).2)
    else send_loop fd m (strlen m) (strlen m) 0 (write w fd (sizeBytes (strlen m))).2

/-- The `while (bytes_read < len)` loop of `receive_message`; `result` holds the bytes
stored so far.  The first argument bounds the number of passes as in `send_loop`. -/
def recv_loop (fd : Nat) (len : Nat) : Nat → Nat → List Nat → World → Option (List Nat) × World
  | 0, _, result, w => (some result, w)
  | fuel + 1, bytes_read, result, w =>
    if bytes_read < len then
      if (read w fd (len - bytes_read)).1 ≤ 0 then (none, (read w fd (len - bytes_read)).2.2)
      else
        recv_loop fd len fuel (bytes_read + (read w fd (len - bytes_read)).1.toNat)
          (result ++ (read w fd (len - bytes_read)).2.1) (read w fd (len - bytes_read)).2.2
    else (some result, w)

/-- The function `receive_message(fd)`: the buffer returned (`none` for NULL) and the new
world.  The buffer returned is the payload followed by the terminator stored at
`result[len]`. -/
def receive_message (w : World) (fd : Nat) : Option (List Nat) × World :=
  if (read w fd 8).1 ≠ 8 then (none, (read w fd 8).2.2)
  else if sizeOfBytes (read w fd 8).2.1 > MAX_MESSAGE_LENGTH then
    (none, { (read w fd 8).2.2 with errno := EINVAL })
  else
    match recv_loop fd (sizeOfBytes (read w fd 8).2.1) (sizeOfBytes (read w fd 8).2.1) 0 []
        (read w fd 8).2.2 with
    | (some result, w1) => (some (result ++ [0]), w1)
    | (none, w1) => (none, w1)

/-- Bytes a successful `send_message` puts on the wire for a C string. -/
def wire (m : List Nat) : List Nat := sizeBytes (strlen m) ++ cstr m

/-! ## Write log observations -/

/-- Bytes of a logged `write` call that the descriptor took. -/
def accepted (c : WriteCall) : List Nat := if 0 < c.rc then c.buf.take c.rc.toNat else []

/-- The `write` calls made so far on a descriptor, in order. -/
def callsTo (w : World) (fd : Nat) : List WriteCall := w.wlog.filter (fun c => decide (c.fd = fd))

/-- All bytes put on the wire of a descriptor so far, in order. -/
def delivered (w : World) (fd : Nat) : List Nat := ((callsTo w fd).map accepted).flatten

/-! ## The peer table -/

/-- The struct `client_t`. -/
structure client_t where
  fd : Nat
  username : Option (List Nat)

/-- The globals of the program, the operating system, and the calls made into the
user interface (`shown` lists the `ui_display` calls, `stopped` records `ui_exit`). -/
structure State where
  username : List Nat
  acceptClient : Nat
  neighbors_accept : Nat → client_t
  world : World
  shown : List (Option (List Nat) × List Nat)
  stopped : Bool

/-- The element `neighbors_accept[i]`; an index outside the table has no element. -/
def entry (s : State) (i : Nat) : Option client_t :=
  if i < MAX_CLIENTS then some (s.neighbors_accept i) else none

/-- Handles of the registered entries `neighbors_accept[0 .. acceptClient-1]`, in order. -/
def registered (s : State) : List Nat :=
  (List.range s.acceptClient).map (fun i => (s.neighbors_accept i).fd)

/-- Globals at program start: every table element zeroed, no descriptor open. -/
def initState (username : List Nat) : State :=
  { username := username, acceptClient := 0, neighbors_accept := fun _ => ⟨0, none⟩,
    world := { conns := fun _ => ⟨false, [], [], []⟩, wlog := [], errno := 0 },
    shown := [], stopped := false }

/-- The operating system hands out descriptor `fd` for a new connection `c`. -/
def openConn (s : State) (fd : Nat) (c : Conn) : State :=
  { s with world := setConn s.world fd { c with isOpen := true } }

/-- The statements `neighbors_accept[acceptClient].fd = fd; acceptClient++`. -/
def storeFd (s : State) (fd : Nat) : State :=
  { s with
    neighbors_accept := fun i =>
      if i = s.acceptClient then { s.neighbors_accept i with fd := fd } else s.neighbors_accept i,
    acceptClient := s.acceptClient + 1 }

/-- The assignment `neighbors_accept[acceptClient].username = u`. -/
def storeUsername (s : State) (u : Option (List Nat)) : State :=
  { s with
    neighbors_accept := fun i =>
      if i = s.acceptClient then { s.neighbors_accept i with username := u }
      else s.neighbors_accept i }

/-- One pass of the loop of `listening` after `server_socket_accept` returned
`client_socket_fd`: store it in `neighbors_accept[acceptClient]`, start the session
thread in `clients[acceptClient]`, count the peer.  Indexing past the tables is
undefined (`none`). -/
def listening (s : State) (client_socket_fd : Nat) : Option State :=
  if s.acceptClient < MAX_CLIENTS then some (storeFd s client_socket_fd) else none

/-- The bootstrap branch of `main` after `socket_connect` returned `peer_socket_fd`:
store it in `neighbors_accept[acceptClient]`, count the peer, then start the session
thread in `clients[acceptClient]` (indexed after the increment). -/
def main_dial (s : State) (peer_socket_fd : Nat) : Option State :=
  if s.acceptClient < MAX_CLIENTS ∧ s.acceptClient + 1 < MAX_CLIENTS then
    some (storeFd s peer_socket_fd)
  else none

/-! ## Broadcast loops -/

/-- A loop `for (int i = first; i < first + count; i++)` whose body acts on the world. -/
def forRange (body : Nat → World → Option World) : Nat → Nat → World → Option World
  | _, 0, w => some w
  | i, k + 1, w => (body i w).bind (forRange body (i + 1) k)

/-- The two sends of a loop pass: the username frame, then (unless that send returned
-1) the body frame; a failing send just ends the pass. -/
def sendPair (w : World) (fd : Nat) (username : Option (List Nat)) (message : List Nat) : World :=
  if (send_message w fd username).1 = -1 then (send_message w fd username).2
  else (send_message (send_message w fd username).2 fd (some message)).2

/-- Body of the relay loop of `clientThread` for index `i`. -/
def relay_body (s : State) (client_socket_fd : Nat) (message : List Nat) (i : Nat) (w : World) :
    Option World :=
  match entry s i with
  | none => none
  | some ci =>
    if ci.fd = client_socket_fd then some w
    else
      match entry s s.acceptClient with
      | none => none
      | some cur => some (sendPair w ci.fd cur.username message)

/-- The relay loop of `clientThread` (`for (int i = 0; i < acceptClient; i++)`). -/
def relay_loop (s : State) (client_socket_fd : Nat) (message : List Nat) (w : World) :
    Option World :=
  forRange (relay_body s client_socket_fd message) 0 s.acceptClient w

/-- One pass of the `while (1)` loop of `clientThread`, `client_socket_fd` being the
value of `*client_socket_fd`.  The result is the new state and whether the loop goes on
(`false` after the `break`); `none` when `neighbors_accept[acceptClient]` lies outside
the table. -/
def clientThread_step (s : State) (client_socket_fd : Nat) : Option (State × Bool) :=
  if s.acceptClient < MAX_CLIENTS then
    match (receive_message s.world client_socket_fd).1,
        (receive_message (receive_message s.world client_socket_fd).2 client_socket_fd).1 with
    | some u, some message =>
      (relay_loop (storeUsername s (some u)) client_socket_fd message
          (receive_message (receive_message s.world client_socket_fd).2 client_socket_fd).2).map
        (fun w =>
          ({ storeUsername s (some u) with
              world := w, shown := s.shown ++ [(some u, message)] }, true))
    | r1, _ =>
      some ({ storeUsername s r1 with
          world := close
            (receive_message (receive_message s.world client_socket_fd).2 client_socket_fd).2
            client_socket_fd }, false)
  else none

/-- The string ":quit". -/
def quitCommand : List Nat := [58, 113, 117, 105, 116]

/-- The string ":q". -/
def qCommand : List Nat := [58, 113]

/-- Body of the send loop of `input_callback` for index `i`. -/
def input_body (s : State) (message : List Nat) (i : Nat) (w : World) : Option World :=
  match entry s i with
  | none => none
  | some ci => some (sendPair w ci.fd (some s.username) message)

/-- The function `input_callback(message)`. -/
def input_callback (s : State) (message : List Nat) : Option State :=
  if cstr message = quitCommand ∨ cstr message = qCommand then some { s with stopped := true }
  else
    (forRange (input_body s message) 0 s.acceptClient s.world).map
      (fun w => { s with world := w, shown := s.shown ++ [(some s.username, message)] })

/-! ## Reachable states of the peer table -/

/-- States the three connection events can produce from program start.  The second
index lists the descriptors that sessions have closed so far. -/
inductive Reachable (username : List Nat) : State → List Nat → Prop
  | start : Reachable username (initState username) []
  | accept {s s1 : State} {closed : List Nat} (fd : Nat) (c : Conn) :
      Reachable username s closed → (s.world.conns fd).isOpen = false →
      listening (openConn s fd c) fd = some s1 → Reachable username s1 closed
  | dial {s s1 : State} {closed : List Nat} (fd : Nat) (c : Conn) :
      Reachable username s closed → (s.world.conns fd).isOpen = false →
      main_dial (openConn s fd c) fd = some s1 → Reachable username s1 closed
  | disconnect {s s1 : State} {closed : List Nat} (fd : Nat) :
      Reachable username s closed → fd ∈ registered s →
      clientThread_step s fd = some (s1, false) → Reachable username s1 (fd :: closed)

/-- Run `listening` for a list of accepted descriptors. -/
def acceptAll : List Nat → State → Option State
  | [], s => some s
  | fd :: fds, s => (listening s fd).bind (acceptAll fds)

/-! ## Predicates and auxiliary notions used in the statements -/

/-- Schedule on which every call succeeds and transfers at least one byte. -/
def Lively (sched : List (Option Nat)) : Prop := ∀ o ∈ sched, ∃ k, o = some k ∧ 1 ≤ k

/-- What reading from descriptor `fd` leaves untouched. -/
structure Reads (fd : Nat) (w w1 : World) : Prop where
  wlog_eq : w1.wlog = w.wlog
  others : ∀ f, f ≠ fd → w1.conns f = w.conns f
  isOpen_eq : (w1.conns fd).isOpen = (w.conns fd).isOpen
  wsched_eq : (w1.conns fd).wsched = (w.conns fd).wsched

/-- Descriptor that is open and whose every write succeeds, taking at least eight bytes
(or all that is offered). -/
def Healthy (w : World) (fd : Nat) : Prop :=
  (w.conns fd).isOpen = true ∧ ∀ o ∈ (w.conns fd).wsched, ∃ k, o = some k ∧ 8 ≤ k

/-- What writing to descriptor `fd` leaves untouched. -/
structure Writes (fd : Nat) (w w1 : World) : Prop where
  others : ∀ f, f ≠ fd → w1.conns f = w.conns f
  isOpen_eq : (w1.conns fd).isOpen = (w.conns fd).isOpen
  wsched_suffix : (w1.conns fd).wsched <:+ (w.conns fd).wsched
  calls_others : ∀ f, f ≠ fd → callsTo w1 f = callsTo w f

/-- Passes of a broadcast loop over the given descriptors, in order. -/
def flood (targets : List Nat) (u : Option (List Nat)) (m : List Nat) (w : World) : World :=
  targets.foldl (fun w1 fd => sendPair w1 fd u m) w

/-- Handles stored at the table indices `i, i+1, ..., i+k-1`. -/
def handlesFrom (s : State) (i k : Nat) : List Nat :=
  (List.range' i k).map (fun j => (s.neighbors_accept j).fd)

/-! ## Sample worlds -/

/-- A world with an empty write log in which every descriptor is open, has no pending
input and serves every call in full. -/
def quietWorld : World :=
  { conns := fun _ => ⟨true, [], [], []⟩, wlog := [], errno := 0 }

/-- The frame of a C string: the bytes `send_message` puts on the wire of a descriptor
that takes every write in full. -/
def encode (message : List Nat) : List Nat :=
  delivered (send_message quietWorld 3 (some message)).2 3

/-- A world like `quietWorld` except that the first write on descriptor 6 fails. -/
def faultyWorld : World :=
  { conns := fun f => if f = 6 then ⟨true, [], [], [none]⟩ else ⟨true, [], [], []⟩,
    wlog := [], errno := 0 }

/-- Program state with the handles 5, 6, 7 registered, the username "a" stored in the
element after them, and the local username "me". -/
def threePeers (w : World) : State :=
  { username := [109, 101, 0], acceptClient := 3,
    neighbors_accept := fun i =>
      if i = 0 then ⟨5, none⟩ else if i = 1 then ⟨6, none⟩ else if i = 2 then ⟨7, none⟩
      else if i = 3 then ⟨0, some [97, 0]⟩ else ⟨0, none⟩,
    world := w, shown := [], stopped := false }

/-- A fresh connection on which nothing arrives: its stream has already ended. -/
def idleConn : Conn := ⟨true, [], [], []⟩

/-- State reached from program start (local username "me") by accepting connections
on the descriptors 5 and 6. -/
def twoPeers : State :=
  storeFd (openConn (storeFd (openConn (initState [109, 101, 0]) 5 idleConn) 5) 6 idleConn) 6

/-- State after the session of descriptor `fd` has made one pass of its loop. -/
def afterPass (s : State) (fd : Nat) : State :=
  ((clientThread_step s fd).map Prod.fst).getD s

/-- State reached from program start by accepting a connection on descriptor 5. -/
def onePeer : State := storeFd (openConn (initState []) 5 idleConn) 5

/-- State reached from `onePeer` when the session of 5 sees its stream end and a new
connection is then accepted on the descriptor 5 it has closed. -/
def reusedPeer : State := storeFd (openConn (afterPass onePeer 5) 5 idleConn) 5

/-- A world in which descriptor 3 is open with the given inbound bytes and read schedule. -/
def streamWorld (inp : List Nat) (rsched : List (Option Nat)) : World :=
  { conns := fun f => if f = 3 then ⟨true, inp, rsched, []⟩ else ⟨false, [], [], []⟩,
    wlog := [], errno := 0 }

/-! # Theorems -/

/-! ## Sizes and strings -/

theorem sizeBytes_eq (n : Nat) : sizeBytes n =
    [n % 256, n / 256 % 256, n / 65536 % 256, n / 16777216 % 256, n / 4294967296 % 256,
      n / 1099511627776 % 256, n / 281474976710656 % 256, n / 72057594037927936 % 256] := by
  simp [sizeBytes, List.range, List.range.loop]

theorem sizeBytes_length (n : Nat) : (sizeBytes n).length = 8 := by
  simp [sizeBytes]

theorem sizeOfBytes_sizeBytes (n : Nat) (h : n < 2 ^ 64) : sizeOfBytes (sizeBytes n) = n := by
  rw [sizeBytes_eq]
  simp only [sizeOfBytes, List.foldr]
  omega

theorem strlen_le (m : List Nat) : strlen m ≤ m.length := by
  unfold strlen
  exact (List.takeWhile_sublist _).length_le

theorem cstr_length (m : List Nat) : (cstr m).length = strlen m := rfl

theorem take_strlen (m : List Nat) : m.take (strlen m) = cstr m := by
  unfold strlen cstr
  induction m with
  | nil => rfl
  | cons b t ih =>
    by_cases hb : b = 0
    · simp [List.takeWhile_cons, hb]
    · have hb2 : (b != 0) = true := by simpa using hb
      simp only [List.takeWhile_cons, hb2, if_true, List.length_cons, List.take_succ_cons, ih]

theorem cstr_terminated (p : List Nat) (h : 0 ∉ p) : cstr (p ++ [0]) = p := by
  unfold cstr
  rw [List.takeWhile_append_of_pos]
  · simp [List.takeWhile]
  · intro a ha
    have : a ≠ 0 := fun e => h (e ▸ ha)
    simpa using this

theorem strlen_terminated (p : List Nat) (h : 0 ∉ p) : strlen (p ++ [0]) = p.length := by
  rw [← cstr_length, cstr_terminated p h]

theorem grant_le {sched : List (Option Nat)} {n t : Nat} (h : grant sched n = some t) : t ≤ n := by
  unfold grant at h
  split at h
  · simp at h; omega
  · simp at h
  · simp at h; omega

theorem Lively.tail {sched : List (Option Nat)} (h : Lively sched) : Lively sched.tail :=
  fun o ho => h o (List.mem_of_mem_tail ho)

theorem Lively.grant {sched : List (Option Nat)} (h : Lively sched) (n : Nat) :
    ∃ t, grant sched n = some t ∧ t ≤ n ∧ (1 ≤ n → 1 ≤ t) := by
  cases sched with
  | nil => exact ⟨n, rfl, le_refl _, fun h => h⟩
  | cons o rest =>
    obtain ⟨k, rfl, hk⟩ := h o (List.mem_cons_self _ _)
    exact ⟨min k n, rfl, Nat.min_le_right _ _, fun hn => by omega⟩

theorem read_errno (w : World) (fd n : Nat) : (read w fd n).2.2.errno = w.errno := by
  unfold read
  split
  · rfl
  · split <;> rfl

theorem read_wlog (w : World) (fd n : Nat) : (read w fd n).2.2.wlog = w.wlog := by
  unfold read
  split
  · rfl
  · split <;> rfl

theorem read_others (w : World) (fd n f : Nat) (hf : f ≠ fd) :
    (read w fd n).2.2.conns f = w.conns f := by
  unfold read
  split
  · rfl
  · split <;> simp [setConn, hf]

theorem read_isOpen (w : World) (fd n : Nat) :
    ((read w fd n).2.2.conns fd).isOpen = (w.conns fd).isOpen := by
  unfold read
  split
  · rfl
  · split <;> simp [setConn]

theorem read_wsched (w : World) (fd n : Nat) :
    ((read w fd n).2.2.conns fd).wsched = (w.conns fd).wsched := by
  unfold read
  split
  · rfl
  · split <;> simp [setConn]

theorem read_granted {w : World} {fd n t : Nat} (ho : (w.conns fd).isOpen = true)
    (hg : grant (w.conns fd).rsched n = some t) :
    read w fd n = (((((w.conns fd).inp.take t).length : Nat) : Int), (w.conns fd).inp.take t,
      setConn w fd
        { w.conns fd with inp := (w.conns fd).inp.drop t, rsched := (w.conns fd).rsched.tail }) := by
  simp [read, ho, hg]

theorem read_rc_le_inp (w : World) (fd n : Nat) :
    (read w fd n).1 ≤ (((w.conns fd).inp.length : Nat) : Int) := by
  unfold read
  split
  · simp; omega
  · split
    · simp; omega
    · simp

theorem read_rc_cases (w : World) (fd n : Nat) :
    ((read w fd n).1 = -1 ∧ (read w fd n).2.1 = [] ∧ ((read w fd n).2.2.conns fd).inp = (w.conns fd).inp) ∨
    ∃ t, t ≤ n ∧ (read w fd n).1 = ((((w.conns fd).inp.take t).length : Nat) : Int) ∧
      (read w fd n).2.1 = (w.conns fd).inp.take t ∧
      ((read w fd n).2.2.conns fd).inp = (w.conns fd).inp.drop t := by
  unfold read
  split
  · left; simp
  · split
    · left; simp [setConn]
    · rename_i t hg
      right
      exact ⟨t, grant_le hg, by simp [setConn]⟩

theorem Reads.unchanged (fd : Nat) (w : World) : Reads fd w w := ⟨rfl, fun _ _ => rfl, rfl, rfl⟩

theorem Reads.andThen {fd : Nat} {w w1 w2 : World} (h1 : Reads fd w w1) (h2 : Reads fd w1 w2) :
    Reads fd w w2 :=
  ⟨h2.wlog_eq.trans h1.wlog_eq, fun f hf => (h2.others f hf).trans (h1.others f hf),
    h2.isOpen_eq.trans h1.isOpen_eq, h2.wsched_eq.trans h1.wsched_eq⟩

theorem read_reads (w : World) (fd n : Nat) : Reads fd w (read w fd n).2.2 :=
  ⟨read_wlog w fd n, fun f hf => read_others w fd n f hf, read_isOpen w fd n, read_wsched w fd n⟩

/-! ## The receive loop -/

theorem recv_loop_reads (fd len : Nat) :
    ∀ (fuel bytes_read : Nat) (result : List Nat) (w : World),
      Reads fd w (recv_loop fd len fuel bytes_read result w).2 ∧
      (recv_loop fd len fuel bytes_read result w).2.errno = w.errno := by
  intro fuel
  induction fuel with
  | zero => intro _ _ w; exact ⟨Reads.unchanged fd w, rfl⟩
  | succ fuel ih =>
    intro bytes_read result w
    unfold recv_loop
    split
    · split
      · exact ⟨read_reads w fd _, read_errno w fd _⟩
      · have h := ih (bytes_read + (read w fd (len - bytes_read)).1.toNat)
          (result ++ (read w fd (len - bytes_read)).2.1) (read w fd (len - bytes_read)).2.2
        exact ⟨(read_reads w fd _).andThen h.1, h.2.trans (read_errno w fd _)⟩
    · exact ⟨Reads.unchanged fd w, rfl⟩

/-- A stream that holds the rest of the payload is read to the end whatever the sizes of
the individual reads, and nothing beyond the payload is consumed. -/
theorem recv_loop_complete (fd len : Nat) :
    ∀ (fuel bytes_read : Nat) (result data rest : List Nat) (w : World),
      (w.conns fd).isOpen = true → Lively (w.conns fd).rsched →
      (w.conns fd).inp = data ++ rest → bytes_read + data.length = len → data.length ≤ fuel →
      (recv_loop fd len fuel bytes_read result w).1 = some (result ++ data) ∧
      ((recv_loop fd len fuel bytes_read result w).2.conns fd).inp = rest := by
  intro fuel
  induction fuel with
  | zero =>
    intro bytes_read result data rest w _ _ hinp _ hfuel
    have hd : data = [] := List.length_eq_zero.mp (Nat.le_zero.mp hfuel)
    subst hd
    simpa [recv_loop] using hinp
  | succ fuel ih =>
    intro bytes_read result data rest w ho hl hinp hlen hfuel
    unfold recv_loop
    by_cases hlt : bytes_read < len
    · obtain ⟨t, hg, htle, htpos⟩ := hl.grant (len - bytes_read)
      have ht1 : 1 ≤ t := htpos (by omega)
      have htd : t ≤ data.length := by omega
      have hr := read_granted ho hg
      have htake : (w.conns fd).inp.take t = data.take t := by
        rw [hinp, List.take_append_of_le_length htd]
      have hdrop : (w.conns fd).inp.drop t = data.drop t ++ rest := by
        rw [hinp, List.drop_append_of_le_length htd]
      have hlen_take : (data.take t).length = t := by
        rw [List.length_take]; omega
      rw [if_pos hlt, hr, htake, hdrop, hlen_take]
      have hpos : ¬ ((t : Nat) : Int) ≤ 0 := by omega
      simp only [hpos, if_false, Int.toNat_natCast]
      have h := ih (bytes_read + t) (result ++ data.take t) (data.drop t) rest
        (setConn w fd { w.conns fd with inp := data.drop t ++ rest, rsched := (w.conns fd).rsched.tail })
        (by simp [setConn, ho]) (by simpa [setConn] using hl.tail) (by simp [setConn])
        (by rw [List.length_drop]; omega) (by rw [List.length_drop]; omega)
      rw [List.append_assoc, List.take_append_drop] at h
      exact h
    · have hd : data = [] := List.length_eq_zero.mp (by omega)
      subst hd
      rw [if_neg hlt]
      simpa using hinp

/-- The pass bound of `recv_loop` is never what stops it: any two bounds of at least the
number of bytes still to be read give the same result. -/
theorem recv_loop_fuel (fd len : Nat) :
    ∀ (fuel1 fuel2 bytes_read : Nat) (result : List Nat) (w : World),
      len - bytes_read ≤ fuel1 → len - bytes_read ≤ fuel2 →
      recv_loop fd len fuel1 bytes_read result w = recv_loop fd len fuel2 bytes_read result w := by
  intro fuel1
  induction fuel1 with
  | zero =>
    intro fuel2 bytes_read result w h1 _
    cases fuel2 with
    | zero => rfl
    | succ k =>
      have hlt : ¬ bytes_read < len := by omega
      simp [recv_loop, hlt]
  | succ fuel1 ih =>
    intro fuel2 bytes_read result w h1 h2
    cases fuel2 with
    | zero =>
      have hlt : ¬ bytes_read < len := by omega
      simp [recv_loop, hlt]
    | succ k =>
      unfold recv_loop
      by_cases hlt : bytes_read < len
      · rw [if_pos hlt, if_pos hlt]
        by_cases hle : (read w fd (len - bytes_read)).1 ≤ 0
        · rw [if_pos hle, if_pos hle]
        · rw [if_neg hle, if_neg hle]
          rcases read_rc_cases w fd (len - bytes_read) with ⟨hrc, _, _⟩ | ⟨t, _, hrc, _, _⟩
          · rw [hrc] at hle; omega
          · have hpos : 1 ≤ ((w.conns fd).inp.take t).length := by rw [hrc] at hle; omega
            rw [hrc, Int.toNat_natCast]
            exact ih k _ _ _ (by omega) (by omega)
      · rw [if_neg hlt, if_neg hlt]

/-! ## The function receive_message -/

theorem receive_message_short {w : World} {fd : Nat} (h : (read w fd 8).1 ≠ 8) :
    receive_message w fd = (none, (read w fd 8).2.2) := by
  simp [receive_message, h]

theorem receive_message_big {w : World} {fd : Nat} (h : (read w fd 8).1 = 8)
    (hbig : MAX_MESSAGE_LENGTH < sizeOfBytes (read w fd 8).2.1) :
    receive_message w fd = (none, { (read w fd 8).2.2 with errno := EINVAL }) := by
  simp [receive_message, h, hbig]

theorem receive_message_body {w : World} {fd : Nat} (h : (read w fd 8).1 = 8)
    (hok : sizeOfBytes (read w fd 8).2.1 ≤ MAX_MESSAGE_LENGTH) :
    (receive_message w fd).1 =
      ((recv_loop fd (sizeOfBytes (read w fd 8).2.1) (sizeOfBytes (read w fd 8).2.1) 0 []
        (read w fd 8).2.2).1).map (fun result => result ++ [0]) ∧
    (receive_message w fd).2 =
      (recv_loop fd (sizeOfBytes (read w fd 8).2.1) (sizeOfBytes (read w fd 8).2.1) 0 []
        (read w fd 8).2.2).2 := by
  have hnb : ¬ sizeOfBytes (read w fd 8).2.1 > MAX_MESSAGE_LENGTH := by omega
  unfold receive_message
  rw [if_neg (by simp [h]), if_neg hnb]
  split <;> rename_i heq <;> simp [heq]

theorem receive_message_reads (w : World) (fd : Nat) : Reads fd w (receive_message w fd).2 := by
  by_cases h : (read w fd 8).1 = 8
  · by_cases hbig : MAX_MESSAGE_LENGTH < sizeOfBytes (read w fd 8).2.1
    · rw [receive_message_big h hbig]
      exact ⟨read_wlog w fd 8, fun f hf => read_others w fd 8 f hf, read_isOpen w fd 8,
        read_wsched w fd 8⟩
    · rw [(receive_message_body h (by omega)).2]
      exact (read_reads w fd 8).andThen (recv_loop_reads fd _ _ _ _ _).1
  · rw [receive_message_short h]
    exact read_reads w fd 8

/-- A complete frame at the head of the stream is returned as soon as the first read
delivers the whole header; the payload may arrive in pieces of any positive size. -/
theorem receive_message_complete (w : World) (fd : Nat) (hdr data rest : List Nat)
    (ho : (w.conns fd).isOpen = true) (hwhole : grant (w.conns fd).rsched 8 = some 8)
    (hl : Lively (w.conns fd).rsched.tail)
    (hinp : (w.conns fd).inp = hdr ++ (data ++ rest)) (hlen : hdr.length = 8)
    (hsize : sizeOfBytes hdr = data.length) (hmax : data.length ≤ MAX_MESSAGE_LENGTH) :
    (receive_message w fd).1 = some (data ++ [0]) ∧
    ((receive_message w fd).2.conns fd).inp = rest ∧
    (receive_message w fd).2.errno = w.errno := by
  have hr := read_granted ho hwhole
  have htake : (w.conns fd).inp.take 8 = hdr := by
    rw [hinp, ← hlen, List.take_left]
  have hdrop : (w.conns fd).inp.drop 8 = data ++ rest := by
    rw [hinp, ← hlen, List.drop_left]
  rw [htake, hdrop, hlen] at hr
  have h8 : (read w fd 8).1 = 8 := by rw [hr]; rfl
  have hb : (read w fd 8).2.1 = hdr := by rw [hr]
  have hw : (read w fd 8).2.2 =
      setConn w fd { w.conns fd with inp := data ++ rest, rsched := (w.conns fd).rsched.tail } := by
    rw [hr]
  have hbody := receive_message_body h8 (by rw [hb, hsize]; exact hmax)
  rw [hb, hsize, hw] at hbody
  have hloop := recv_loop_complete fd data.length data.length 0 [] data rest
    (setConn w fd { w.conns fd with inp := data ++ rest, rsched := (w.conns fd).rsched.tail })
    (by simp [setConn, ho]) (by simpa [setConn] using hl) (by simp [setConn]) (by simp)
    (le_refl _)
  have herr := (recv_loop_reads fd data.length data.length 0 []
    (setConn w fd { w.conns fd with inp := data ++ rest, rsched := (w.conns fd).rsched.tail })).2
  refine ⟨?_, ?_, ?_⟩
  · rw [hbody.1, hloop.1]; simp
  · rw [hbody.2, hloop.2]
  · rw [hbody.2, herr]; rfl

/-! ## Writing -/

theorem Writes.nothing (fd : Nat) (w : World) : Writes fd w w :=
  ⟨fun _ _ => rfl, rfl, List.suffix_refl _, fun _ _ => rfl⟩

theorem Writes.followedBy {fd : Nat} {w w1 w2 : World} (h1 : Writes fd w w1) (h2 : Writes fd w1 w2) :
    Writes fd w w2 :=
  ⟨fun f hf => (h2.others f hf).trans (h1.others f hf), h2.isOpen_eq.trans h1.isOpen_eq,
    h2.wsched_suffix.trans h1.wsched_suffix,
    fun f hf => (h2.calls_others f hf).trans (h1.calls_others f hf)⟩

theorem Writes.healthy {fd : Nat} {w w1 : World} (h : Writes fd w w1) (hh : Healthy w fd) :
    Healthy w1 fd :=
  ⟨h.isOpen_eq.trans hh.1, fun o ho => hh.2 o (h.wsched_suffix.subset ho)⟩

theorem Writes.healthy_other {fd f : Nat} {w w1 : World} (h : Writes fd w w1) (hf : f ≠ fd)
    (hh : Healthy w f) : Healthy w1 f := by
  unfold Healthy
  rw [h.others f hf]
  exact hh

theorem Writes.delivered_other {fd f : Nat} {w w1 : World} (h : Writes fd w w1) (hf : f ≠ fd) :
    delivered w1 f = delivered w f := by
  unfold delivered
  rw [h.calls_others f hf]

theorem callsTo_logWrite_self (w : World) (fd : Nat) (buf : List Nat) (rc : Int) :
    callsTo (logWrite w fd buf rc) fd = callsTo w fd ++ [⟨fd, buf, rc⟩] := by
  simp [callsTo, logWrite, List.filter_append]

theorem callsTo_logWrite_other (w : World) (fd f : Nat) (buf : List Nat) (rc : Int) (hf : f ≠ fd) :
    callsTo (logWrite w fd buf rc) f = callsTo w f := by
  have : ¬ fd = f := fun e => hf e.symm
  simp [callsTo, logWrite, List.filter_append, this]

theorem callsTo_setConn (w : World) (fd f : Nat) (c : Conn) :
    callsTo (setConn w fd c) f = callsTo w f := rfl

theorem write_calls (w : World) (fd : Nat) (buf : List Nat) :
    callsTo (write w fd buf).2 fd = callsTo w fd ++ [⟨fd, buf, (write w fd buf).1⟩] := by
  unfold write
  split
  · exact callsTo_logWrite_self w fd buf (-1)
  · split
    · rw [callsTo_logWrite_self, callsTo_setConn]
    · rw [callsTo_logWrite_self, callsTo_setConn]

theorem write_writes (w : World) (fd : Nat) (buf : List Nat) : Writes fd w (write w fd buf).2 := by
  unfold write
  split
  · exact ⟨fun _ _ => rfl, rfl, List.suffix_refl _,
      fun f hf => callsTo_logWrite_other w fd f buf (-1) hf⟩
  · split
    · exact ⟨fun f hf => by simp [logWrite, setConn, hf], by simp [logWrite, setConn],
        by simpa [logWrite, setConn] using List.tail_suffix _,
        fun f hf => by rw [callsTo_logWrite_other _ _ _ _ _ hf, callsTo_setConn]⟩
    · exact ⟨fun f hf => by simp [logWrite, setConn, hf], by simp [logWrite, setConn],
        by simpa [logWrite, setConn] using List.tail_suffix _,
        fun f hf => by rw [callsTo_logWrite_other _ _ _ _ _ hf, callsTo_setConn]⟩

theorem write_rc (w : World) (fd : Nat) (buf : List Nat) :
    (write w fd buf).1 = -1 ∨ ∃ t : Nat, t ≤ buf.length ∧ (write w fd buf).1 = (t : Int) := by
  unfold write
  split
  · left; rfl
  · split
    · left; rfl
    · rename_i t hg
      right
      exact ⟨t, grant_le hg, rfl⟩

theorem write_healthy {w : World} {fd : Nat} (h : Healthy w fd) (buf : List Nat) :
    ∃ t : Nat, (write w fd buf).1 = (t : Int) ∧ t ≤ buf.length ∧ (buf.length ≤ 8 → t = buf.length) ∧
      (1 ≤ buf.length → 1 ≤ t) := by
  have ho : ¬ (w.conns fd).isOpen = false := by simp [h.1]
  unfold write
  rw [if_neg ho]
  cases hs : (w.conns fd).wsched with
  | nil => exact ⟨buf.length, by simp [grant], le_refl _, fun _ => rfl, fun h => h⟩
  | cons o rest =>
    obtain ⟨k, rfl, hk⟩ := h.2 o (by rw [hs]; exact List.mem_cons_self _ _)
    exact ⟨min k buf.length, by simp [grant], Nat.min_le_right _ _, fun _ => by omega,
      fun _ => by omega⟩

theorem write_delivered (w : World) (fd : Nat) (buf : List Nat) :
    delivered (write w fd buf).2 fd =
      delivered w fd ++ accepted ⟨fd, buf, (write w fd buf).1⟩ := by
  unfold delivered
  rw [write_calls]
  simp

/-! ## The send loop -/

theorem send_loop_writes (fd : Nat) (m : List Nat) (len : Nat) :
    ∀ (fuel bytes_written : Nat) (w : World),
      Writes fd w (send_loop fd m len fuel bytes_written w).2 := by
  intro fuel
  induction fuel with
  | zero => intro _ w; exact Writes.nothing fd w
  | succ fuel ih =>
    intro bytes_written w
    unfold send_loop
    split
    · split
      · exact write_writes w fd _
      · exact (write_writes w fd _).followedBy (ih _ _)
    · exact Writes.nothing fd w

theorem send_loop_rc (fd : Nat) (m : List Nat) (len : Nat) :
    ∀ (fuel bytes_written : Nat) (w : World),
      (send_loop fd m len fuel bytes_written w).1 = 0 ∨
      (send_loop fd m len fuel bytes_written w).1 = -1 := by
  intro fuel
  induction fuel with
  | zero => intro _ w; left; rfl
  | succ fuel ih =>
    intro bytes_written w
    unfold send_loop
    split
    · split
      · right; rfl
      · exact ih _ _
    · left; rfl

/-- When the loop returns 0 the descriptor took exactly the bytes still to be written. -/
theorem send_loop_delivered (fd : Nat) (m : List Nat) (len : Nat) (hlen : len ≤ m.length) :
    ∀ (fuel bytes_written : Nat) (w : World),
      len - bytes_written ≤ fuel → (send_loop fd m len fuel bytes_written w).1 = 0 →
      delivered (send_loop fd m len fuel bytes_written w).2 fd =
        delivered w fd ++ (m.drop bytes_written).take (len - bytes_written) := by
  intro fuel
  induction fuel with
  | zero =>
    intro bytes_written w hfuel _
    have h0 : len - bytes_written = 0 := by omega
    simp [send_loop, h0]
  | succ fuel ih =>
    intro bytes_written w hfuel hrc
    unfold send_loop at hrc ⊢
    by_cases hlt : bytes_written < len
    · rw [if_pos hlt] at hrc ⊢
      by_cases hle : (write w fd ((m.drop bytes_written).take (len - bytes_written))).1 ≤ 0
      · rw [if_pos hle] at hrc
        simp at hrc
      · rw [if_neg hle] at hrc ⊢
        rcases write_rc w fd ((m.drop bytes_written).take (len - bytes_written)) with
          hneg | ⟨t, htle, ht⟩
        · rw [hneg] at hle; omega
        · have hbuf : ((m.drop bytes_written).take (len - bytes_written)).length =
              len - bytes_written := by
            rw [List.length_take, List.length_drop]; omega
          rw [hbuf] at htle
          have htpos : 1 ≤ t := by rw [ht] at hle; omega
          rw [ht, Int.toNat_natCast] at hrc ⊢
          rw [ih (bytes_written + t) _ (by omega) hrc, write_delivered, ht]
          have hacc : accepted ⟨fd, (m.drop bytes_written).take (len - bytes_written), (t : Int)⟩ =
              ((m.drop bytes_written).take (len - bytes_written)).take t := by
            have : (0 : Int) < (t : Int) := by omega
            simp [accepted, this]
          rw [hacc, List.append_assoc]
          congr 1
          have hsplit := List.take_append_drop t ((m.drop bytes_written).take (len - bytes_written))
          rw [List.drop_take, List.drop_drop] at hsplit
          have e : len - (bytes_written + t) = len - bytes_written - t := by omega
          rw [e]
          exact hsplit
    · rw [if_neg hlt]
      have h0 : len - bytes_written = 0 := by omega
      simp [h0]

theorem send_loop_healthy (fd : Nat) (m : List Nat) (len : Nat) (hlen : len ≤ m.length) :
    ∀ (fuel bytes_written : Nat) (w : World),
      Healthy w fd → (send_loop fd m len fuel bytes_written w).1 = 0 := by
  intro fuel
  induction fuel with
  | zero => intro _ _ _; rfl
  | succ fuel ih =>
    intro bytes_written w hh
    unfold send_loop
    by_cases hlt : bytes_written < len
    · rw [if_pos hlt]
      obtain ⟨t, ht, _, _, hpos⟩ := write_healthy hh ((m.drop bytes_written).take (len - bytes_written))
      have hbuf : ((m.drop bytes_written).take (len - bytes_written)).length =
          len - bytes_written := by
        rw [List.length_take, List.length_drop]; omega
      have ht1 : 1 ≤ t := hpos (by rw [hbuf]; omega)
      have hle : ¬ (write w fd ((m.drop bytes_written).take (len - bytes_written))).1 ≤ 0 := by
        rw [ht]; omega
      rw [if_neg hle]
      exact ih _ _ ((write_writes w fd _).healthy hh)
    · rw [if_neg hlt]

/-- The pass bound of `send_loop` is never what stops it: any two bounds of at least the
number of bytes still to be written give the same result. -/
theorem send_loop_fuel (fd : Nat) (m : List Nat) (len : Nat) :
    ∀ (fuel1 fuel2 bytes_written : Nat) (w : World),
      len - bytes_written ≤ fuel1 → len - bytes_written ≤ fuel2 →
      send_loop fd m len fuel1 bytes_written w = send_loop fd m len fuel2 bytes_written w := by
  intro fuel1
  induction fuel1 with
  | zero =>
    intro fuel2 bytes_written w h1 _
    cases fuel2 with
    | zero => rfl
    | succ k =>
      have hlt : ¬ bytes_written < len := by omega
      simp [send_loop, hlt]
  | succ fuel1 ih =>
    intro fuel2 bytes_written w h1 h2
    cases fuel2 with
    | zero =>
      have hlt : ¬ bytes_written < len := by omega
      simp [send_loop, hlt]
    | succ k =>
      unfold send_loop
      by_cases hlt : bytes_written < len
      · rw [if_pos hlt, if_pos hlt]
        by_cases hle : (write w fd ((m.drop bytes_written).take (len - bytes_written))).1 ≤ 0
        · rw [if_pos hle, if_pos hle]
        · rw [if_neg hle, if_neg hle]
          rcases write_rc w fd ((m.drop bytes_written).take (len - bytes_written)) with
            hneg | ⟨t, _, ht⟩
          · rw [hneg] at hle; omega
          · have htpos : 1 ≤ t := by rw [ht] at hle; omega
            rw [ht, Int.toNat_natCast]
            exact ih k (bytes_written + t) _ (by omega) (by omega)
      · rw [if_neg hlt, if_neg hlt]

/-! ## The function send_message -/

theorem send_message_writes (w : World) (fd : Nat) (message : Option (List Nat)) :
    Writes fd w (send_message w fd message).2 := by
  cases message with
  | none => exact ⟨fun _ _ => rfl, rfl, List.suffix_refl _, fun _ _ => rfl⟩
  | some m =>
    unfold send_message
    simp only
    split
    · exact write_writes w fd _
    · exact (write_writes w fd _).followedBy (send_loop_writes fd m _ _ _ _)

theorem send_message_rc (w : World) (fd : Nat) (message : Option (List Nat)) :
    (send_message w fd message).1 = 0 ∨ (send_message w fd message).1 = -1 := by
  cases message with
  | none => right; rfl
  | some m =>
    unfold send_message
    simp only
    split
    · right; rfl
    · exact send_loop_rc fd m _ _ _ _

/-- A send that returns 0 has put exactly one frame on the wire of its descriptor. -/
theorem send_message_delivered (w : World) (fd : Nat) (m : List Nat)
    (h : (send_message w fd (some m)).1 = 0) :
    delivered (send_message w fd (some m)).2 fd = delivered w fd ++ wire m := by
  unfold send_message at h ⊢
  simp only at h ⊢
  by_cases h8 : (write w fd (sizeBytes (strlen m))).1 = 8
  · rw [if_neg (by simp [h8])] at h ⊢
    rw [send_loop_delivered fd m (strlen m) (strlen_le m) _ _ _ (by omega) h, write_delivered, h8]
    have hacc : accepted ⟨fd, sizeBytes (strlen m), 8⟩ = sizeBytes (strlen m) := by
      have hl := sizeBytes_length (strlen m)
      simp only [accepted]
      rw [if_pos (by omega)]
      exact List.take_of_length_le (by simp [hl])
    rw [hacc, List.append_assoc]
    simp [wire, take_strlen]
  · rw [if_pos h8] at h
    simp at h

theorem send_message_healthy (w : World) (fd : Nat) (m : List Nat) (hh : Healthy w fd) :
    (send_message w fd (some m)).1 = 0 := by
  unfold send_message
  simp only
  obtain ⟨t, ht, _, hfull, _⟩ := write_healthy hh (sizeBytes (strlen m))
  have ht8 : t = 8 := by
    rw [sizeBytes_length] at hfull
    exact hfull (le_refl _)
  have h8 : (write w fd (sizeBytes (strlen m))).1 = 8 := by rw [ht, ht8]; rfl
  rw [if_neg (by simp [h8])]
  exact send_loop_healthy fd m (strlen m) (strlen_le m) _ _ _ ((write_writes w fd _).healthy hh)

theorem sendPair_writes (w : World) (fd : Nat) (u : Option (List Nat)) (m : List Nat) :
    Writes fd w (sendPair w fd u m) := by
  unfold sendPair
  split
  · exact send_message_writes w fd u
  · exact (send_message_writes w fd u).followedBy (send_message_writes _ fd (some m))

/-- On a healthy descriptor a pass puts the username frame and then the body frame on
the wire. -/
theorem sendPair_healthy (w : World) (fd : Nat) (u m : List Nat) (hh : Healthy w fd) :
    delivered (sendPair w fd (some u) m) fd = delivered w fd ++ (wire u ++ wire m) := by
  have h1 := send_message_healthy w fd u hh
  have hh1 := (send_message_writes w fd (some u)).healthy hh
  have h2 := send_message_healthy (send_message w fd (some u)).2 fd m hh1
  unfold sendPair
  rw [if_neg (by rw [h1]; decide), send_message_delivered _ fd m h2,
    send_message_delivered w fd u h1, List.append_assoc]

theorem flood_cons (t : Nat) (ts : List Nat) (u : Option (List Nat)) (m : List Nat) (w : World) :
    flood (t :: ts) u m w = flood ts u m (sendPair w t u m) := rfl

theorem flood_untouched (f : Nat) (u : Option (List Nat)) (m : List Nat) :
    ∀ (targets : List Nat) (w : World), f ∉ targets →
      callsTo (flood targets u m w) f = callsTo w f ∧ (flood targets u m w).conns f = w.conns f := by
  intro targets
  induction targets with
  | nil => intro w _; exact ⟨rfl, rfl⟩
  | cons t ts ih =>
    intro w hf
    have hft : f ≠ t := fun e => hf (e ▸ List.mem_cons_self _ _)
    have hfts : f ∉ ts := fun e => hf (List.mem_cons_of_mem _ e)
    have hw := sendPair_writes w t u m
    rw [flood_cons, (ih _ hfts).1, (ih _ hfts).2, hw.calls_others f hft, hw.others f hft]
    exact ⟨rfl, rfl⟩

theorem flood_healthy (f : Nat) (u m : List Nat) :
    ∀ (targets : List Nat) (w : World), Healthy w f →
      delivered (flood targets (some u) m w) f =
        delivered w f ++ (List.replicate (targets.count f) (wire u ++ wire m)).flatten := by
  intro targets
  induction targets with
  | nil => intro w _; simp [flood]
  | cons t ts ih =>
    intro w hh
    have hw := sendPair_writes w t (some u) m
    rw [flood_cons]
    by_cases hft : f = t
    · subst hft
      rw [ih _ (hw.healthy hh), sendPair_healthy w f u m hh, List.count_cons_self,
        List.replicate_succ, List.flatten_cons, List.append_assoc]
    · rw [ih _ (hw.healthy_other hft hh), hw.delivered_other hft,
        List.count_cons_of_ne hft]

theorem handlesFrom_succ (s : State) (i k : Nat) :
    handlesFrom s i (k + 1) = (s.neighbors_accept i).fd :: handlesFrom s (i + 1) k := by
  simp [handlesFrom, List.range'_succ]

theorem registered_eq (s : State) : registered s = handlesFrom s 0 s.acceptClient := by
  simp [registered, handlesFrom, List.range_eq_range']

theorem input_loop_eq (s : State) (m : List Nat) :
    ∀ (k i : Nat) (w : World), i + k ≤ MAX_CLIENTS →
      forRange (input_body s m) i k w = some (flood (handlesFrom s i k) (some s.username) m w) := by
  intro k
  induction k with
  | zero => intro i w _; rfl
  | succ k ih =>
    intro i w hb
    have hi : i < MAX_CLIENTS := by omega
    rw [forRange, handlesFrom_succ, flood_cons]
    simp only [input_body, entry, hi, if_true, Option.some_bind]
    exact ih (i + 1) _ (by omega)

theorem relay_loop_eq (s : State) (origin : Nat) (m : List Nat) (cur : client_t)
    (hcur : entry s s.acceptClient = some cur) :
    ∀ (k i : Nat) (w : World), i + k ≤ MAX_CLIENTS →
      forRange (relay_body s origin m) i k w =
        some (flood ((handlesFrom s i k).filter (fun f => decide (f ≠ origin))) cur.username m w) := by
  intro k
  induction k with
  | zero => intro i w _; rfl
  | succ k ih =>
    intro i w hb
    have hi : i < MAX_CLIENTS := by omega
    rw [forRange, handlesFrom_succ]
    by_cases ho : (s.neighbors_accept i).fd = origin
    · simp only [relay_body, entry, hi, if_true, ho, Option.some_bind]
      rw [ih (i + 1) w (by omega)]
      simp
    · have hent : entry s i = some (s.neighbors_accept i) := by simp [entry, hi]
      simp only [relay_body, hent, hcur, ho, if_false, Option.some_bind]
      rw [ih (i + 1) _ (by omega), List.filter_cons_of_pos (by simpa using ho), flood_cons]

/-! ## Frames -/

theorem quietWorld_healthy (fd : Nat) : Healthy quietWorld fd :=
  ⟨rfl, fun _ ho => absurd ho (List.not_mem_nil _)⟩

/-- C1, as stated, fails: the payload 65, 0, 66 has length 3, `send_message` succeeds on
it, and `receive_message` reading the bytes written returns the one-byte string 65, not
the payload sent (`strlen` stops at the zero byte). -/
theorem roundtrip_zero_byte_counterexample :
    [65, 0, 66].length ≤ MAX_MESSAGE_LENGTH ∧
    (send_message quietWorld 3 (some ([65, 0, 66] ++ [0]))).1 = 0 ∧
    (receive_message
      (streamWorld (delivered (send_message quietWorld 3 (some ([65, 0, 66] ++ [0]))).2 3) []) 3).1
      = some [65, 0] ∧
    some [65, 0] ≠ some ([65, 0, 66] ++ [0]) := by
  decide

/-- C1, amended: for every payload `p` of at most 2048 bytes none of which is zero, if
`send_message` returns 0 for the string `p` and `receive_message` reads a stream that
starts with the bytes that call put on the wire, the first read delivering the eight
header bytes and every later read at least one byte, then `receive_message` returns the
string `p` (payload and terminator) and consumes exactly those bytes. -/
theorem roundtrip (p : List Nat) (ws : World) (fds : Nat) (written rest : List Nat)
    (w : World) (fd : Nat) (hnul : 0 ∉ p) (hlen : p.length ≤ MAX_MESSAGE_LENGTH)
    (hsend : (send_message ws fds (some (p ++ [0]))).1 = 0)
    (hwritten : delivered (send_message ws fds (some (p ++ [0]))).2 fds = delivered ws fds ++ written)
    (hopen : (w.conns fd).isOpen = true) (hwhole : grant (w.conns fd).rsched 8 = some 8)
    (hlive : Lively (w.conns fd).rsched.tail) (hinp : (w.conns fd).inp = written ++ rest) :
    (receive_message w fd).1 = some (p ++ [0]) ∧
    ((receive_message w fd).2.conns fd).inp = rest := by
  have hw : written = sizeBytes p.length ++ p := by
    have h := send_message_delivered ws fds (p ++ [0]) hsend
    rw [hwritten] at h
    have h2 := List.append_cancel_left h
    rw [h2, wire, strlen_terminated p hnul, cstr_terminated p hnul]
  have hmax : p.length < 2 ^ 64 := by
    have : MAX_MESSAGE_LENGTH = 2048 := rfl
    omega
  have h := receive_message_complete w fd (sizeBytes p.length) p rest hopen hwhole hlive
    (by rw [hinp, hw, List.append_assoc]) (sizeBytes_length _) (sizeOfBytes_sizeBytes _ hmax) hlen
  exact ⟨h.1, h.2.1⟩

/-- Witness for C1: the payload 65, 66 read back with the payload arriving one
byte at a time. -/
theorem roundtrip_witness :
    (receive_message (streamWorld [2, 0, 0, 0, 0, 0, 0, 0, 65, 66, 7] [some 8, some 1]) 3).1
      = some ([65, 66] ++ [0]) ∧
    ((receive_message (streamWorld [2, 0, 0, 0, 0, 0, 0, 0, 65, 66, 7] [some 8, some 1]) 3).2.conns
      3).inp = [7] :=
  roundtrip [65, 66] quietWorld 3 [2, 0, 0, 0, 0, 0, 0, 0, 65, 66] [7]
    (streamWorld [2, 0, 0, 0, 0, 0, 0, 0, 65, 66, 7] [some 8, some 1]) 3
    (by decide) (by decide) (by decide) (by decide) (by decide) (by decide)
    (by intro o ho; exact ⟨1, by simpa [streamWorld] using ho, le_refl _⟩) (by decide)

/-- C2: on a stream whose first eight bytes declare a length of 2049 or more,
`receive_message` returns NULL and never consumes a byte beyond those eight; when the
descriptor is open and its first read delivers the eight header bytes, exactly those
eight bytes are consumed and `errno` is set to EINVAL. -/
theorem receive_message_oversized (w : World) (fd : Nat) (hdr rest : List Nat)
    (hinp : (w.conns fd).inp = hdr ++ rest) (hlen : hdr.length = 8)
    (hbig : MAX_MESSAGE_LENGTH + 1 ≤ sizeOfBytes hdr) :
    (receive_message w fd).1 = none ∧
    (∃ k, k ≤ 8 ∧ ((receive_message w fd).2.conns fd).inp = (hdr ++ rest).drop k) ∧
    ((w.conns fd).isOpen = true → grant (w.conns fd).rsched 8 = some 8 →
      ((receive_message w fd).2.conns fd).inp = rest ∧ (receive_message w fd).2.errno = EINVAL) := by
  have key : ∀ t, t ≤ 8 → ((w.conns fd).inp.take t).length = 8 →
      t = 8 ∧ (w.conns fd).inp.take t = hdr ∧ (w.conns fd).inp.drop t = rest := by
    intro t ht h8
    have : t = 8 := by
      rw [List.length_take] at h8; omega
    subst this
    rw [hinp, ← hlen, List.take_left, List.drop_left]
    exact ⟨rfl, rfl, rfl⟩
  have main : (receive_message w fd).1 = none ∧
      ∃ k, k ≤ 8 ∧ ((receive_message w fd).2.conns fd).inp = (hdr ++ rest).drop k := by
    rcases read_rc_cases w fd 8 with ⟨hrc, _, hsame⟩ | ⟨t, ht, hrc, hbytes, hrest⟩
    · have hne : (read w fd 8).1 ≠ 8 := by rw [hrc]; decide
      rw [receive_message_short hne]
      exact ⟨rfl, 0, by omega, by simpa [hinp] using hsame⟩
    · by_cases h8 : (read w fd 8).1 = 8
      · have hl : ((w.conns fd).inp.take t).length = 8 := by
          rw [hrc] at h8; exact_mod_cast h8
        obtain ⟨rfl, htake, hdrop⟩ := key t ht hl
        have hb : MAX_MESSAGE_LENGTH < sizeOfBytes (read w fd 8).2.1 := by
          rw [hbytes, htake]; omega
        rw [receive_message_big h8 hb]
        refine ⟨rfl, 8, le_refl _, ?_⟩
        show ((read w fd 8).2.2.conns fd).inp = _
        rw [hrest, hinp]
      · rw [receive_message_short h8]
        exact ⟨rfl, t, ht, by rw [hrest, hinp]⟩
  refine ⟨main.1, main.2, ?_⟩
  intro ho hwhole
  have hr := read_granted ho hwhole
  have h8l : ((w.conns fd).inp.take 8).length = 8 := by
    rw [hinp, ← hlen, List.take_left]
  obtain ⟨-, htake, hdrop⟩ := key 8 (le_refl _) h8l
  have h8 : (read w fd 8).1 = 8 := by rw [hr, h8l]; rfl
  have hb : MAX_MESSAGE_LENGTH < sizeOfBytes (read w fd 8).2.1 := by
    rw [hr]; simp only; rw [htake]; omega
  rw [receive_message_big h8 hb]
  refine ⟨?_, rfl⟩
  show ((read w fd 8).2.2.conns fd).inp = rest
  rw [hr]
  simp [setConn, hdrop]

/-- Witness for C2: a header declaring 2049 bytes, followed by
two more bytes that stay unread. -/
theorem receive_message_oversized_witness :
    (receive_message (streamWorld [1, 8, 0, 0, 0, 0, 0, 0, 65, 66] []) 3).1 = none ∧
    (∃ k, k ≤ 8 ∧ ((receive_message (streamWorld [1, 8, 0, 0, 0, 0, 0, 0, 65, 66] []) 3).2.conns
      3).inp = ([1, 8, 0, 0, 0, 0, 0, 0] ++ [65, 66]).drop k) ∧
    (((streamWorld [1, 8, 0, 0, 0, 0, 0, 0, 65, 66] []).conns 3).isOpen = true →
      grant ((streamWorld [1, 8, 0, 0, 0, 0, 0, 0, 65, 66] []).conns 3).rsched 8 = some 8 →
      ((receive_message (streamWorld [1, 8, 0, 0, 0, 0, 0, 0, 65, 66] []) 3).2.conns 3).inp
        = [65, 66] ∧
      (receive_message (streamWorld [1, 8, 0, 0, 0, 0, 0, 0, 65, 66] []) 3).2.errno = EINVAL) :=
  receive_message_oversized (streamWorld [1, 8, 0, 0, 0, 0, 0, 0, 65, 66] []) 3
    [1, 8, 0, 0, 0, 0, 0, 0] [65, 66] (by decide) (by decide) (by decide)

/-- C9 fails on the code: the stream holds the complete frame of the one-byte payload
65, and `receive_message` returns it when the first read delivers the header whole, but
returns NULL when the first read delivers only three of the eight header bytes (the
header read is not retried, unlike the payload reads). -/
theorem receive_message_split_header :
    encode [65, 0] = [1, 0, 0, 0, 0, 0, 0, 0, 65] ∧
    (receive_message (streamWorld (encode [65, 0]) []) 3).1 = some [65, 0] ∧
    (receive_message (streamWorld (encode [65, 0]) [some 3, some 5, some 1]) 3).1 = none := by
  decide

/-! ## The loops of the program as folds -/

theorem input_callback_flood (s : State) (line : List Nat) (hcap : s.acceptClient ≤ MAX_CLIENTS)
    (hq1 : cstr line ≠ quitCommand) (hq2 : cstr line ≠ qCommand) :
    input_callback s line =
      some { s with
        world := flood (registered s) (some s.username) line s.world,
        shown := s.shown ++ [(some s.username, line)] } := by
  unfold input_callback
  rw [if_neg (by simp [hq1, hq2]), input_loop_eq s line s.acceptClient 0 s.world (by omega),
    registered_eq]
  rfl

theorem relay_loop_flood (s : State) (origin : Nat) (m : List Nat) (cur : client_t) (w : World)
    (hcur : entry s s.acceptClient = some cur) :
    relay_loop s origin m w =
      some (flood ((registered s).filter (fun f => decide (f ≠ origin))) cur.username m w) := by
  have hcap : s.acceptClient < MAX_CLIENTS := by
    unfold entry at hcur
    by_contra hge
    rw [if_neg hge] at hcur
    exact absurd hcur (by simp)
  unfold relay_loop
  rw [relay_loop_eq s origin m cur hcur s.acceptClient 0 w (by omega), registered_eq]

theorem count_filter_ne (l : List Nat) (f origin : Nat) (h : f ≠ origin) :
    (l.filter (fun g => decide (g ≠ origin))).count f = l.count f :=
  List.count_filter (by simpa using h)

/-- C4: for every table with at most `MAX_CLIENTS` registered peers and every input line
other than ":quit" and ":q", `input_callback` completes and, the sends succeeding, puts
on the wire of every registered handle the frame of the local username followed by the
frame of the line, once for each table entry that holds the handle; no entry is left
out. -/
theorem input_callback_coverage (s : State) (line : List Nat)
    (hcap : s.acceptClient ≤ MAX_CLIENTS) (hq1 : cstr line ≠ quitCommand)
    (hq2 : cstr line ≠ qCommand) (hall : ∀ f ∈ registered s, Healthy s.world f) :
    ∃ s1, input_callback s line = some s1 ∧
      ∀ f ∈ registered s,
        0 < (registered s).count f ∧
        delivered s1.world f = delivered s.world f ++
          (List.replicate ((registered s).count f) (wire s.username ++ wire line)).flatten := by
  refine ⟨_, input_callback_flood s line hcap hq1 hq2, ?_⟩
  intro f hf
  exact ⟨List.count_pos_iff.mpr hf, flood_healthy f s.username line _ s.world (hall f hf)⟩

/-- Witness for C4: handles 5, 6, 7 and the line "hi". -/
theorem input_callback_coverage_witness :
    ∃ s1, input_callback (threePeers quietWorld) [104, 105, 0] = some s1 ∧
      ∀ f ∈ registered (threePeers quietWorld),
        0 < (registered (threePeers quietWorld)).count f ∧
        delivered s1.world f = delivered (threePeers quietWorld).world f ++
          (List.replicate ((registered (threePeers quietWorld)).count f)
            (wire (threePeers quietWorld).username ++ wire [104, 105, 0])).flatten :=
  input_callback_coverage (threePeers quietWorld) [104, 105, 0] (by decide) (by decide)
    (by decide) (fun f _ => quietWorld_healthy f)

/-- C5: whatever fails on other descriptors, both broadcast loops complete, and every
descriptor whose own sends succeed receives the username frame followed by the body
frame once for each table entry that holds it, exactly as when no send fails; the relay
loop (run once the session has stored the received username `u`) leaves out only the
origin. -/
theorem broadcast_failure_isolation (s : State) (origin : Nat) (m line : List Nat) (w : World)
    (hcap : s.acceptClient ≤ MAX_CLIENTS) (hq1 : cstr line ≠ quitCommand)
    (hq2 : cstr line ≠ qCommand) :
    (∀ (cur : client_t) (u : List Nat), entry s s.acceptClient = some cur →
      cur.username = some u →
      ∃ w1, relay_loop s origin m w = some w1 ∧
        ∀ f, f ≠ origin → Healthy w f →
          delivered w1 f = delivered w f ++
            (List.replicate ((registered s).count f) (wire u ++ wire m)).flatten) ∧
    (∃ s1, input_callback s line = some s1 ∧
      ∀ f, Healthy s.world f →
        delivered s1.world f = delivered s.world f ++
          (List.replicate ((registered s).count f) (wire s.username ++ wire line)).flatten) := by
  constructor
  · intro cur u hcur hu
    refine ⟨_, relay_loop_flood s origin m cur w hcur, ?_⟩
    intro f hne hh
    rw [hu, flood_healthy f u m _ w hh, count_filter_ne _ f origin hne]
  · refine ⟨_, input_callback_flood s line hcap hq1 hq2, ?_⟩
    intro f hh
    exact flood_healthy f s.username line _ s.world hh

/-- Witness for C5: handles 5, 6, 7 with the first write on 6
failing. -/
theorem broadcast_failure_isolation_witness :
    (∀ (cur : client_t) (u : List Nat),
      entry (threePeers faultyWorld) (threePeers faultyWorld).acceptClient = some cur →
      cur.username = some u →
      ∃ w1, relay_loop (threePeers faultyWorld) 5 [104, 105, 0] faultyWorld = some w1 ∧
        ∀ f, f ≠ 5 → Healthy faultyWorld f →
          delivered w1 f = delivered faultyWorld f ++
            (List.replicate ((registered (threePeers faultyWorld)).count f)
              (wire u ++ wire [104, 105, 0])).flatten) ∧
    (∃ s1, input_callback (threePeers faultyWorld) [104, 105, 0] = some s1 ∧
      ∀ f, Healthy (threePeers faultyWorld).world f →
        delivered s1.world f = delivered (threePeers faultyWorld).world f ++
          (List.replicate ((registered (threePeers faultyWorld)).count f)
            (wire (threePeers faultyWorld).username ++ wire [104, 105, 0])).flatten) :=
  broadcast_failure_isolation (threePeers faultyWorld) 5 [104, 105, 0] [104, 105, 0] faultyWorld
    (by decide) (by decide) (by decide)

/-! ## Session passes -/

theorem registered_storeUsername (s : State) (u : Option (List Nat)) :
    registered (storeUsername s u) = registered s := by
  unfold registered storeUsername
  apply List.map_congr_left
  intro i _
  by_cases h : i = s.acceptClient <;> simp [h]

theorem registered_storeFd (s : State) (fd : Nat) :
    registered (storeFd s fd) = registered s ++ [fd] := by
  unfold registered storeFd
  simp only [List.range_succ, List.map_append, List.map_cons, List.map_nil, if_true]
  congr 1
  apply List.map_congr_left
  intro i hi
  have : i ≠ s.acceptClient := Nat.ne_of_lt (List.mem_range.mp hi)
  simp [this]

theorem close_others (w : World) (fd f : Nat) (hf : f ≠ fd) : (close w fd).conns f = w.conns f := by
  simp [close, setConn, hf]

theorem callsTo_close (w : World) (fd f : Nat) : callsTo (close w fd) f = callsTo w f := rfl

theorem Reads.callsTo {fd : Nat} {w w1 : World} (h : Reads fd w w1) (f : Nat) :
    callsTo w1 f = callsTo w f := by
  unfold P2PChat.callsTo
  rw [h.wlog_eq]

theorem Reads.delivered {fd : Nat} {w w1 : World} (h : Reads fd w w1) (f : Nat) :
    delivered w1 f = delivered w f := by
  unfold P2PChat.delivered
  rw [h.callsTo]

theorem Reads.keeps_healthy {fd f : Nat} {w w1 : World} (h : Reads fd w w1) (hf : f ≠ fd)
    (hh : Healthy w f) : Healthy w1 f := by
  unfold Healthy
  rw [h.others f hf]
  exact hh

theorem receive_twice_reads (w : World) (fd : Nat) :
    Reads fd w (receive_message (receive_message w fd).2 fd).2 :=
  (receive_message_reads w fd).andThen (receive_message_reads _ fd)

/-- A pass that ends the session has closed the descriptor and changed nothing in the
table but the username of the element after the registered ones. -/
theorem clientThread_step_false {s s1 : State} {fd : Nat}
    (h : clientThread_step s fd = some (s1, false)) :
    s.acceptClient < MAX_CLIENTS ∧
    s1 = { storeUsername s (receive_message s.world fd).1 with
      world := close (receive_message (receive_message s.world fd).2 fd).2 fd } ∧
    ((receive_message s.world fd).1 = none ∨
      (receive_message (receive_message s.world fd).2 fd).1 = none) := by
  unfold clientThread_step at h
  by_cases hcap : s.acceptClient < MAX_CLIENTS
  · rw [if_pos hcap] at h
    refine ⟨hcap, ?_⟩
    split at h
    · rename_i u message h1 h2
      cases hr : relay_loop (storeUsername s (some u)) fd message
          (receive_message (receive_message s.world fd).2 fd).2 <;> simp [hr] at h
    · rename_i r1 r2 hno
      simp only [Option.some.injEq, Prod.mk.injEq, and_true] at h
      refine ⟨h.symm, ?_⟩
      cases h1 : (receive_message s.world fd).1 with
      | none => left; rfl
      | some u =>
        cases h2 : (receive_message (receive_message s.world fd).2 fd).1 with
        | none => right; rfl
        | some m => exact absurd h2 (fun h2 => hno u m h1 h2)
  · rw [if_neg hcap] at h
    exact absurd h (by simp)

/-- A pass that received a username and a body runs the relay loop over the registered
handles other than its own. -/
theorem clientThread_step_true (s : State) (fd : Nat) (u m : List Nat)
    (hcap : s.acceptClient < MAX_CLIENTS) (h1 : (receive_message s.world fd).1 = some u)
    (h2 : (receive_message (receive_message s.world fd).2 fd).1 = some m) :
    clientThread_step s fd =
      some ({ storeUsername s (some u) with
        world := flood ((registered s).filter (fun f => decide (f ≠ fd))) (some u) m
          (receive_message (receive_message s.world fd).2 fd).2,
        shown := s.shown ++ [(some u, m)] }, true) := by
  have hcur : entry (storeUsername s (some u)) (storeUsername s (some u)).acceptClient =
      some { s.neighbors_accept s.acceptClient with username := some u } := by
    simp [entry, storeUsername, hcap]
  unfold clientThread_step
  rw [if_pos hcap]
  simp only [h1, h2]
  rw [relay_loop_flood _ fd m _ _ hcur, registered_storeUsername]
  rfl

/-- A pass of a session that receives a username and a body relays both to every other
registered handle whose sends succeed and shows the message locally. -/
theorem clientThread_step_coverage (s : State) (origin : Nat) (u m : List Nat)
    (hcap : s.acceptClient < MAX_CLIENTS) (h1 : (receive_message s.world origin).1 = some u)
    (h2 : (receive_message (receive_message s.world origin).2 origin).1 = some m) :
    ∃ s1, clientThread_step s origin = some (s1, true) ∧
      registered s1 = registered s ∧ s1.shown = s.shown ++ [(some u, m)] ∧
      callsTo s1.world origin = callsTo s.world origin ∧
      ∀ f, f ≠ origin → Healthy s.world f →
        delivered s1.world f = delivered s.world f ++
          (List.replicate ((registered s).count f) (wire u ++ wire m)).flatten := by
  have hr := receive_twice_reads s.world origin
  refine ⟨_, clientThread_step_true s origin u m hcap h1 h2, registered_storeUsername s _, rfl,
    ?_, ?_⟩
  · show callsTo (flood _ (some u) m _) origin = _
    rw [(flood_untouched origin _ m _ _ (by simp [List.mem_filter])).1, hr.callsTo]
  · intro f hfo hh
    show delivered (flood _ (some u) m _) f = _
    rw [flood_healthy f u m _ _ (hr.keeps_healthy hfo hh), hr.delivered,
      count_filter_ne _ f origin hfo]

/-! ## Capacity of the tables -/

/-- As long as the table has room, accepting connections registers their descriptors in
order. -/
theorem acceptAll_within :
    ∀ (fds : List Nat) (s : State), s.acceptClient + fds.length ≤ MAX_CLIENTS →
      ∃ s1, acceptAll fds s = some s1 ∧ s1.acceptClient = s.acceptClient + fds.length ∧
        registered s1 = registered s ++ fds := by
  intro fds
  induction fds with
  | nil => intro s _; exact ⟨s, rfl, rfl, by simp⟩
  | cons fd fds ih =>
    intro s h
    have hlt : s.acceptClient < MAX_CLIENTS := by
      simp only [List.length_cons] at h; omega
    obtain ⟨s1, hs1, hcount, hregs⟩ := ih (storeFd s fd) (by
      simp only [List.length_cons] at h
      show s.acceptClient + 1 + fds.length ≤ MAX_CLIENTS
      omega)
    refine ⟨s1, ?_, ?_, ?_⟩
    · simp only [acceptAll, listening, hlt, if_true, Option.some_bind]
      exact hs1
    · rw [hcount]
      show s.acceptClient + 1 + fds.length = s.acceptClient + (fd :: fds).length
      simp only [List.length_cons]; omega
    · rw [hregs, registered_storeFd, List.append_assoc]
      rfl

/-- One connection more than the table has room for makes `listening` index past it. -/
theorem acceptAll_overflow :
    ∀ (fds : List Nat) (s : State), s.acceptClient ≤ MAX_CLIENTS →
      MAX_CLIENTS < s.acceptClient + fds.length → acceptAll fds s = none := by
  intro fds
  induction fds with
  | nil => intro s h1 h2; simp only [List.length_nil] at h2; omega
  | cons fd fds ih =>
    intro s h1 h2
    by_cases hlt : s.acceptClient < MAX_CLIENTS
    · simp only [acceptAll, listening, hlt, if_true, Option.some_bind]
      apply ih
      · show s.acceptClient + 1 ≤ MAX_CLIENTS
        omega
      · simp only [List.length_cons] at h2
        show MAX_CLIENTS < s.acceptClient + 1 + fds.length
        omega
    · simp [acceptAll, listening, hlt]

/-! ## Claims on disconnects and the peer table -/

/-- C7, as stated, fails: accept a connection on descriptor 5, let its session see the
stream end and close the descriptor, accept a new connection on descriptor 5 (not open
at that moment); the handle 5 is then registered twice. -/
theorem registry_duplicate_counterexample :
    Reachable [] reusedPeer [5] ∧ registered reusedPeer = [5, 5] ∧
    ¬ (registered reusedPeer).Nodup := by
  refine ⟨?_, by decide, by decide⟩
  have h1 : Reachable [] onePeer [] := Reachable.accept 5 idleConn Reachable.start rfl rfl
  have h2 : Reachable [] (afterPass onePeer 5) [5] :=
    Reachable.disconnect 5 h1 (by decide) rfl
  exact Reachable.accept 5 idleConn h2 rfl rfl

theorem listening_some {s s1 : State} {fd : Nat} (h : listening s fd = some s1) :
    s1 = storeFd s fd := by
  unfold listening at h
  split at h
  · exact (Option.some.inj h).symm
  · exact absurd h (by simp)

theorem main_dial_some {s s1 : State} {fd : Nat} (h : main_dial s fd = some s1) :
    s1 = storeFd s fd := by
  unfold main_dial at h
  split at h
  · exact (Option.some.inj h).symm
  · exact absurd h (by simp)

/-- Registering a descriptor that was not open keeps the handles of connections never
closed both open and unique. -/
theorem unique_after_store (s : State) (closed : List Nat) (fd : Nat) (c : Conn)
    (hopen : ∀ f ∈ registered s, f ∉ closed → (s.world.conns f).isOpen = true)
    (hcount : ∀ f, f ∉ closed → (registered s).count f ≤ 1)
    (hfd : (s.world.conns fd).isOpen = false) :
    (∀ f ∈ registered (storeFd (openConn s fd c) fd), f ∉ closed →
      ((storeFd (openConn s fd c) fd).world.conns f).isOpen = true) ∧
    (∀ f, f ∉ closed → (registered (storeFd (openConn s fd c) fd)).count f ≤ 1) := by
  have hregs : registered (storeFd (openConn s fd c) fd) = registered s ++ [fd] :=
    registered_storeFd (openConn s fd c) fd
  have hworld : (storeFd (openConn s fd c) fd).world = setConn s.world fd { c with isOpen := true } :=
    rfl
  rw [hregs, hworld]
  constructor
  · intro f hf hcl
    by_cases hffd : f = fd
    · subst hffd; simp [setConn]
    · have hmem : f ∈ registered s := by
        rcases List.mem_append.mp hf with h | h
        · exact h
        · exact absurd (List.mem_singleton.mp h) hffd
      simpa [setConn, hffd] using hopen f hmem hcl
  · intro f hcl
    rw [List.count_append, List.count_singleton]
    by_cases hffd : f = fd
    · subst hffd
      have hnot : f ∉ registered s := by
        intro hmem
        have := hopen f hmem hcl
        rw [hfd] at this
        exact absurd this (by simp)
      rw [List.count_eq_zero_of_not_mem hnot]
      simp
    · have : ¬ (fd == f) = true := by simpa using fun e : fd = f => hffd e.symm
      rw [if_neg this]
      exact hcount f hcl

/-- C7, amended: in every state reachable from program start by accepting inbound
connections, dialing the bootstrap peer and sessions closing their connection on a
failed receive, each new connection getting a descriptor that is not open, a handle
whose descriptor no session has closed is still open and appears at most once among
`neighbors_accept[0 .. acceptClient-1]`. -/
theorem registry_unique_unless_closed (username : List Nat) (s : State) (closed : List Nat)
    (hreach : Reachable username s closed) :
    (∀ f ∈ registered s, f ∉ closed → (s.world.conns f).isOpen = true) ∧
    (∀ f, f ∉ closed → (registered s).count f ≤ 1) := by
  induction hreach with
  | start => exact ⟨fun f hf => absurd hf (by simp [registered, initState]), fun f _ => by
      simp [registered, initState]⟩
  | accept fd c _ hfd hstep ih =>
    rw [listening_some hstep]
    exact unique_after_store _ _ fd c ih.1 ih.2 hfd
  | dial fd c _ hfd hstep ih =>
    rw [main_dial_some hstep]
    exact unique_after_store _ _ fd c ih.1 ih.2 hfd
  | @disconnect s0 s2 closed0 fd _ _ hstep ih =>
    obtain ⟨-, hs1, -⟩ := clientThread_step_false hstep
    have hregs : registered s2 = registered s0 := by
      rw [hs1]; exact registered_storeUsername s0 _
    have hworld : s2.world = close (receive_message (receive_message s0.world fd).2 fd).2 fd := by
      rw [hs1]
    rw [hregs]
    constructor
    · intro f hf hcl
      have hffd : f ≠ fd := fun e => hcl (e ▸ List.mem_cons_self _ _)
      have hcl0 : f ∉ closed0 := fun e => hcl (List.mem_cons_of_mem _ e)
      rw [hworld, close_others _ fd f hffd, (receive_twice_reads s0.world fd).others f hffd]
      exact ih.1 f hf hcl0
    · intro f hcl
      exact ih.2 f (fun e => hcl (List.mem_cons_of_mem _ e))

/-- Witness for C7: the state with the handles 5 and 6. -/
theorem registry_unique_unless_closed_witness :
    (∀ f ∈ registered twoPeers, f ∉ ([] : List Nat) → (twoPeers.world.conns f).isOpen = true) ∧
    (∀ f, f ∉ ([] : List Nat) → (registered twoPeers).count f ≤ 1) :=
  registry_unique_unless_closed [109, 101, 0] twoPeers []
    (Reachable.accept 6 idleConn (Reachable.accept 5 idleConn Reachable.start rfl rfl) rfl rfl)

/-- C10 fails on the code: `listening` has no capacity check.  After 100 accepted
connections `acceptClient` equals `MAX_CLIENTS`, and the pass for the 101st connection
indexes `neighbors_accept[100]` and `clients[100]`, outside both tables; the same
happens at the 100th accepted connection after a bootstrap dial. -/
theorem registry_overflow :
    (acceptAll (List.range' 4 100) (initState [])).map (fun s => s.acceptClient)
      = some MAX_CLIENTS ∧
    (acceptAll (List.range' 4 101) (initState [])).isNone = true ∧
    ((main_dial (initState []) 3).bind (acceptAll (List.range' 4 100))).isNone = true := by
  decide

end P2PChat
